import Mathlib

/-!
Shallow embedding of `src/kbd_maker.py` (AlvOS-32bit keyboard layout encoder).

The Python function `create_keyboard_layout(filename, name, normal_map, shift_map,
altgr_map=None)` validates three scan-code maps (lists of characters or integers),
resolves each entry to a byte, pads/truncates each map to 128 bytes, builds a
32-byte null-terminated ASCII name field and a 4-byte little-endian magic, and
writes the 420-byte concatenation to a file.  We model the produced byte stream
as the return value: `Except KbdError (List Nat)`; a raised `ValueError` /
`UnicodeEncodeError` is an `Except.error`, in which case nothing is written.
-/

namespace KbdMaker

/-- The three failure classes of the encoder (the Python code raises
`ValueError` with distinct messages, plus `UnicodeEncodeError` from
`name.encode('ascii')`). -/
inductive KbdError where
  | invalidElement
  | outOfRange
  | nameEncodingError
  deriving DecidableEq, Repr

/-- A map entry as the Python code inspects it with `isinstance`: a string
(of any length), an integer (unbounded, possibly negative), or anything else. -/
inductive Elem where
  | str (s : List Char)
  | intg (n : Int)
  | other
  deriving DecidableEq, Repr

/-- The `special_chars` dictionary of `to_byte_list` (lines 11-22). -/
def special_chars (c : Char) : Option Nat :=
  if c = '€' then some 0x80
  else if c = 'ñ' then some 0xF1
  else if c = 'ç' then some 0xE7
  else if c = 'Ñ' then some 0xD1
  else if c = 'Ç' then some 0xC7
  else if c = '·' then some 0xB7
  else if c = '¿' then some 0xBF
  else if c = '¡' then some 0xA1
  else if c = '´' then some 0xB4
  else if c = '¨' then some 0xA8
  else none

/-- Resolution of one map entry: the body of the `for x in lst` loop of
`to_byte_list` (lines 25-39).  A string must have length 1, then
`special_chars.get(x, ord(x))` is used with an over-255 check; an integer must
lie in [0, 255]; anything else is invalid. -/
def resolveElem : Elem → Except KbdError Nat
  | .str [c] =>
      let byte_val := (special_chars c).getD c.toNat
      if byte_val > 255 then .error .outOfRange else .ok byte_val
  | .str _ => .error .invalidElement
  | .intg n => if n < 0 ∨ n > 255 then .error .outOfRange else .ok n.toNat
  | .other => .error .invalidElement

/-- The `for x in lst` loop of `to_byte_list`: resolves entries left to right,
the first raised error aborting the whole loop (lines 24-39). -/
def resolveList : List Elem → Except KbdError (List Nat)
  | [] => .ok []
  | x :: xs =>
      match resolveElem x with
      | .error e => .error e
      | .ok b =>
          match resolveList xs with
          | .error e => .error e
          | .ok bs => .ok (b :: bs)

/-- `to_byte_list` (lines 9-41): resolve every entry, then
`(bytes_list + [0]*128)[:128]` — zero-pad and truncate to exactly 128. -/
def to_byte_list (lst : List Elem) : Except KbdError (List Nat) :=
  match resolveList lst with
  | .error e => .error e
  | .ok bytes_list => .ok ((bytes_list ++ List.replicate 128 0).take 128)

/-- Line 46: `bytes(to_byte_list(altgr_map)) if altgr_map else bytes([0]*128)`.
`altgr_map` is falsy when it is `None` or the empty list. -/
def altgrMapBytes : Option (List Elem) → Except KbdError (List Nat)
  | none => .ok (List.replicate 128 0)
  | some l => if l.isEmpty then .ok (List.replicate 128 0) else to_byte_list l

/-- `name.encode('ascii')` (line 52): every character must be a 7-bit code
point, otherwise `UnicodeEncodeError` is raised; on success each character
becomes one byte holding its code point. -/
def encode_ascii : List Char → Except KbdError (List Nat)
  | [] => .ok []
  | c :: cs =>
      if c.toNat ≥ 128 then .error .nameEncodingError
      else
        match encode_ascii cs with
        | .error e => .error e
        | .ok bs => .ok (c.toNat :: bs)

/-- `struct.pack('<I', n)` (line 56): four bytes, least significant first. -/
def pack_u32_le (n : Nat) : List Nat :=
  [n % 256, n / 2 ^ 8 % 256, n / 2 ^ 16 % 256, n / 2 ^ 24 % 256]

/-- The magic number `'KBLY' = 0x4B424C59` (line 49). -/
def magic : Nat := 0x4B424C59

/-- Lines 52-53: `name.encode('ascii')[:31] + b'\x7b0\x7d'` padded with zero
bytes to a total of 32 (applied here to the already-encoded byte list). -/
def name_field (na : List Nat) : List Nat :=
  let name_bytes := na.take 31 ++ [0]
  name_bytes ++ List.replicate (32 - name_bytes.length) 0

/-- `create_keyboard_layout` (lines 4-59), with the file write modelled as
returning the byte stream.  The maps are converted first (lines 44-46, normal
then shift then altgr), the name is encoded afterwards (line 52), and the
packed data (line 56) is magic ++ name ++ normal ++ shift ++ altgr. -/
def create_keyboard_layout (name : List Char) (normal_map shift_map : List Elem)
    (altgr_map : Option (List Elem)) : Except KbdError (List Nat) :=
  match to_byte_list normal_map with
  | .error e => .error e
  | .ok normal_bytes =>
    match to_byte_list shift_map with
    | .error e => .error e
    | .ok shift_bytes =>
      match altgrMapBytes altgr_map with
      | .error e => .error e
      | .ok altgr_bytes =>
        match encode_ascii name with
        | .error e => .error e
        | .ok name_ascii =>
            .ok (pack_u32_le magic ++ name_field name_ascii ++
                 normal_bytes ++ shift_bytes ++ altgr_bytes)

/-! ## Basic inversion and length lemmas -/

theorem resolveList_ok_length {l : List Elem} {bl : List Nat}
    (h : resolveList l = .ok bl) : bl.length = l.length := by
  induction l generalizing bl with
  | nil => cases h; rfl
  | cons x xs ih =>
      unfold resolveList at h
      cases hx : resolveElem x with
      | error e => rw [hx] at h; cases h
      | ok b =>
          rw [hx] at h
          cases hr : resolveList xs with
          | error e => rw [hr] at h; cases h
          | ok bs =>
              rw [hr] at h
              cases h
              simp [ih hr]

theorem to_byte_list_ok_iff {l : List Elem} {out : List Nat} :
    to_byte_list l = .ok out ↔
      ∃ bl, resolveList l = .ok bl ∧ out = (bl ++ List.replicate 128 0).take 128 := by
  unfold to_byte_list
  cases hr : resolveList l with
  | error e => simp
  | ok bl =>
      simp only [Except.ok.injEq]
      constructor
      · intro h; exact ⟨bl, rfl, h.symm⟩
      · rintro ⟨bl', h1, h2⟩
        cases h1
        exact h2.symm

theorem to_byte_list_length {l : List Elem} {out : List Nat}
    (h : to_byte_list l = .ok out) : out.length = 128 := by
  rcases to_byte_list_ok_iff.mp h with ⟨bl, _, rfl⟩
  simp

theorem altgrMapBytes_length {ag : Option (List Elem)} {out : List Nat}
    (h : altgrMapBytes ag = .ok out) : out.length = 128 := by
  cases ag with
  | none => cases h; simp
  | some l =>
      simp only [altgrMapBytes] at h
      by_cases hl : l.isEmpty
      · rw [if_pos hl] at h; cases h; simp
      · rw [if_neg hl] at h; exact to_byte_list_length h

theorem name_field_length (na : List Nat) : (name_field na).length = 32 := by
  unfold name_field
  simp only [List.length_append, List.length_replicate, List.length_take,
    List.length_cons, List.length_nil]
  omega

theorem create_ok_iff (name : List Char) (nm sm : List Elem)
    (ag : Option (List Elem)) (data : List Nat) :
    create_keyboard_layout name nm sm ag = .ok data ↔
      ∃ nb sb ab na, to_byte_list nm = .ok nb ∧ to_byte_list sm = .ok sb ∧
        altgrMapBytes ag = .ok ab ∧ encode_ascii name = .ok na ∧
        data = pack_u32_le magic ++ name_field na ++ nb ++ sb ++ ab := by
  unfold create_keyboard_layout
  cases h1 : to_byte_list nm with
  | error e => simp [h1]
  | ok nb =>
      cases h2 : to_byte_list sm with
      | error e => simp
      | ok sb =>
          cases h3 : altgrMapBytes ag with
          | error e => simp
          | ok ab =>
              cases h4 : encode_ascii name with
              | error e => simp
              | ok na =>
                  simp only [Except.ok.injEq]
                  constructor
                  · intro h; exact ⟨nb, sb, ab, na, rfl, rfl, rfl, rfl, h.symm⟩
                  · rintro ⟨nb', sb', ab', na', e1, e2, e3, e4, rfl⟩
                    cases e1; cases e2; cases e3; cases e4; rfl

deriving instance DecidableEq for Except

/-! ## Error propagation lemmas -/

theorem resolveList_append_error {pre : List Elem} {bl : List Nat}
    (h : resolveList pre = .ok bl) {x : Elem} {e : KbdError}
    (hx : resolveElem x = .error e) (suf : List Elem) :
    resolveList (pre ++ x :: suf) = .error e := by
  induction pre generalizing bl with
  | nil => simp only [List.nil_append, resolveList, hx]
  | cons y ys ih =>
      simp only [resolveList] at h
      cases hy : resolveElem y with
      | error e' => rw [hy] at h; cases h
      | ok b =>
          rw [hy] at h
          cases hr : resolveList ys with
          | error e' => rw [hr] at h; cases h
          | ok bs =>
              simp only [List.cons_append, resolveList, hy, List.append_eq, ih hr]

theorem to_byte_list_error {l : List Elem} {e : KbdError}
    (h : resolveList l = .error e) : to_byte_list l = .error e := by
  unfold to_byte_list; rw [h]

theorem create_error_of_normal {nm : List Elem} {e : KbdError}
    (h : to_byte_list nm = .error e) (name : List Char) (sm : List Elem)
    (ag : Option (List Elem)) :
    create_keyboard_layout name nm sm ag = .error e := by
  unfold create_keyboard_layout; rw [h]

theorem create_error_of_name {name : List Char} {nm sm : List Elem}
    {ag : Option (List Elem)} {nb sb ab : List Nat} {e : KbdError}
    (h1 : to_byte_list nm = .ok nb) (h2 : to_byte_list sm = .ok sb)
    (h3 : altgrMapBytes ag = .ok ab) (h4 : encode_ascii name = .error e) :
    create_keyboard_layout name nm sm ag = .error e := by
  unfold create_keyboard_layout; rw [h1, h2, h3, h4]

/-! ## Resolution lemmas -/

theorem resolveElem_str_not_single {s : List Char} (h : s.length ≠ 1) :
    resolveElem (.str s) = .error .invalidElement := by
  match s with
  | [] => rfl
  | [c] => simp at h
  | c₁ :: c₂ :: rest => rfl

theorem special_chars_le {c : Char} {v : Nat}
    (h : special_chars c = some v) : v ≤ 255 := by
  unfold special_chars at h
  split_ifs at h <;> cases h <;> decide

theorem resolveElem_special {c : Char} {v : Nat} (h : special_chars c = some v) :
    resolveElem (.str [c]) = .ok v := by
  have hv : v ≤ 255 := special_chars_le h
  simp only [resolveElem, h, Option.getD_some]
  rw [if_neg (by omega)]

theorem resolveElem_int_out {n : Int} (h : n < 0 ∨ 255 < n) :
    resolveElem (.intg n) = .error .outOfRange := by
  simp only [resolveElem]
  rw [if_pos (by omega)]

/-! ## ASCII name encoding lemmas -/

theorem encode_ascii_ok {name : List Char} (h : ∀ c ∈ name, c.toNat < 128) :
    encode_ascii name = .ok (name.map Char.toNat) := by
  induction name with
  | nil => rfl
  | cons c cs ih =>
      have hc : c.toNat < 128 := h c (List.mem_cons_self c cs)
      simp only [encode_ascii, if_neg (by omega : ¬c.toNat ≥ 128),
        ih (fun x hx => h x (List.mem_cons_of_mem c hx)), List.map_cons]

theorem encode_ascii_error {name : List Char} (h : ∃ c ∈ name, 128 ≤ c.toNat) :
    encode_ascii name = .error .nameEncodingError := by
  induction name with
  | nil => rcases h with ⟨c, hc, _⟩; cases hc
  | cons c cs ih =>
      by_cases hc : c.toNat ≥ 128
      · simp only [encode_ascii, if_pos hc]
      · rcases h with ⟨d, hd, hd2⟩
        rcases List.mem_cons.mp hd with rfl | hd'
        · omega
        · simp only [encode_ascii, if_neg hc, ih ⟨d, hd', hd2⟩]

/-! ## Byte-region arithmetic on the packed output -/

theorem drop_append_of_length {l₁ l₂ : List Nat} {n : Nat} (h : l₁.length = n) :
    (l₁ ++ l₂).drop n = l₂ := by
  subst h; simp

theorem take_append_of_length {l₁ l₂ : List Nat} {n : Nat} (h : l₁.length = n) :
    (l₁ ++ l₂).take n = l₁ := by
  subst h; simp

theorem data_region_name (na nb sb ab : List Nat) :
    ((pack_u32_le magic ++ name_field na ++ nb ++ sb ++ ab).drop 4).take 32 =
      name_field na := by
  simp only [List.append_assoc]
  rw [drop_append_of_length (show (pack_u32_le magic).length = 4 from rfl),
    take_append_of_length (name_field_length na)]

theorem data_region_normal (na nb sb ab : List Nat) (hnb : nb.length = 128) :
    ((pack_u32_le magic ++ name_field na ++ nb ++ sb ++ ab).drop 36).take 128 =
      nb := by
  simp only [List.append_assoc]
  rw [← List.append_assoc (pack_u32_le magic) (name_field na)]
  rw [drop_append_of_length (by simp [name_field_length, pack_u32_le, magic]),
    take_append_of_length hnb]

theorem data_region_shift (na nb sb ab : List Nat)
    (hnb : nb.length = 128) (hsb : sb.length = 128) :
    ((pack_u32_le magic ++ name_field na ++ nb ++ sb ++ ab).drop 164).take 128 =
      sb := by
  simp only [List.append_assoc]
  rw [← List.append_assoc (pack_u32_le magic) (name_field na),
    ← List.append_assoc (pack_u32_le magic ++ name_field na) nb]
  rw [drop_append_of_length (by simp [pack_u32_le, name_field_length, hnb]),
    take_append_of_length hsb]

theorem data_region_altgr (na nb sb ab : List Nat)
    (hnb : nb.length = 128) (hsb : sb.length = 128) :
    (pack_u32_le magic ++ name_field na ++ nb ++ sb ++ ab).drop 292 = ab := by
  rw [drop_append_of_length]
  simp [name_field_length, pack_u32_le, magic, hnb, hsb]

theorem altgrMapBytes_some (l : List Elem) :
    altgrMapBytes (some l) = to_byte_list l := by
  cases l with
  | nil =>
      simp only [altgrMapBytes, List.isEmpty_nil, if_pos, to_byte_list,
        resolveList, List.nil_append, List.take_replicate, Except.ok.injEq]
      rfl
  | cons a as => simp [altgrMapBytes]

theorem create_error_of_shift {nm sm : List Elem} {nb : List Nat}
    {e : KbdError} (h1 : to_byte_list nm = .ok nb)
    (h2 : to_byte_list sm = .error e) (name : List Char)
    (ag : Option (List Elem)) :
    create_keyboard_layout name nm sm ag = .error e := by
  unfold create_keyboard_layout; rw [h1, h2]

theorem create_error_of_altgr {nm sm : List Elem} {nb sb : List Nat}
    {ag : Option (List Elem)} {e : KbdError}
    (h1 : to_byte_list nm = .ok nb) (h2 : to_byte_list sm = .ok sb)
    (h3 : altgrMapBytes ag = .error e) (name : List Char) :
    create_keyboard_layout name nm sm ag = .error e := by
  unfold create_keyboard_layout; rw [h1, h2, h3]

theorem encode_fails_normal {x : Elem} {e : KbdError}
    (he : resolveElem x = .error e) {pre : List Elem} {bl : List Nat}
    (hpre : resolveList pre = .ok bl) (name : List Char) (suf sm : List Elem)
    (ag : Option (List Elem)) :
    create_keyboard_layout name (pre ++ x :: suf) sm ag = .error e :=
  create_error_of_normal
    (to_byte_list_error (resolveList_append_error hpre he suf)) name sm ag

theorem encode_fails_shift {x : Elem} {e : KbdError}
    (he : resolveElem x = .error e) {nm : List Elem} {nb : List Nat}
    (hnm : to_byte_list nm = .ok nb) {pre : List Elem} {bl : List Nat}
    (hpre : resolveList pre = .ok bl) (name : List Char) (suf : List Elem)
    (ag : Option (List Elem)) :
    create_keyboard_layout name nm (pre ++ x :: suf) ag = .error e :=
  create_error_of_shift hnm
    (to_byte_list_error (resolveList_append_error hpre he suf)) name ag

theorem encode_fails_altgr {x : Elem} {e : KbdError}
    (he : resolveElem x = .error e) {nm sm : List Elem} {nb sb : List Nat}
    (hnm : to_byte_list nm = .ok nb) (hsm : to_byte_list sm = .ok sb)
    {pre : List Elem} {bl : List Nat} (hpre : resolveList pre = .ok bl)
    (name : List Char) (suf : List Elem) :
    create_keyboard_layout name nm sm (some (pre ++ x :: suf)) = .error e :=
  create_error_of_altgr hnm hsm
    (by rw [altgrMapBytes_some]
        exact to_byte_list_error (resolveList_append_error hpre he suf))
    name

theorem name_field_eq (na : List Nat) :
    name_field na = na.take 31 ++ 0 :: List.replicate (31 - (na.take 31).length) 0 := by
  have h1 : name_field na =
      (na.take 31 ++ [0]) ++ List.replicate (32 - (na.take 31 ++ [0]).length) 0 := rfl
  rw [h1]
  have hc : 32 - (na.take 31 ++ [0]).length = 31 - (na.take 31).length := by
    simp only [List.length_append, List.length_cons, List.length_nil]
    omega
  rw [hc, List.append_assoc, List.singleton_append]

theorem pad_take_getElem (bl : List Nat) (i : Nat)
    (h1 : bl.length ≤ i) (h2 : i < 128) :
    ((bl ++ List.replicate 128 0).take 128)[i]? = some 0 := by
  rw [List.getElem?_take, if_pos h2, List.getElem?_append_right h1,
    List.getElem?_replicate, if_pos (by omega)]

theorem pad_trunc_core {lst : List Elem} {bl reg : List Nat}
    (hr : resolveList lst = .ok bl)
    (hreg : reg = (bl ++ List.replicate 128 0).take 128) :
    (∀ i, lst.length ≤ i → i < 128 → reg[i]? = some 0) ∧
    (128 < lst.length → reg = bl.take 128) := by
  have hlen : bl.length = lst.length := resolveList_ok_length hr
  subst hreg
  refine ⟨fun i hi1 hi2 => pad_take_getElem bl i (by omega) hi2,
    fun hk => List.take_append_of_le_length (by omega)⟩

/-! ## The claims -/

/-- C1: for every valid input (any name and maps whose entries all resolve to
bytes), `create_keyboard_layout` produces exactly 420 bytes: the concatenation,
in order, of the 4-byte magic, the 32-byte name field, the 128-byte normal map,
the 128-byte shift map and the 128-byte altgr map, regardless of the lengths
of the input maps. -/
theorem C1_output_is_420_bytes (name : List Char) (nm sm : List Elem)
    (ag : Option (List Elem)) (data : List Nat)
    (h : create_keyboard_layout name nm sm ag = .ok data) :
    data.length = 420 ∧
      ∃ nb sb ab na, to_byte_list nm = .ok nb ∧ to_byte_list sm = .ok sb ∧
        altgrMapBytes ag = .ok ab ∧ encode_ascii name = .ok na ∧
        (pack_u32_le magic).length = 4 ∧ (name_field na).length = 32 ∧
        nb.length = 128 ∧ sb.length = 128 ∧ ab.length = 128 ∧
        data = pack_u32_le magic ++ name_field na ++ nb ++ sb ++ ab := by
  rcases (create_ok_iff name nm sm ag data).mp h with
    ⟨nb, sb, ab, na, h1, h2, h3, h4, rfl⟩
  have l1 := to_byte_list_length h1
  have l2 := to_byte_list_length h2
  have l3 := altgrMapBytes_length h3
  have l4 := name_field_length na
  refine ⟨?_, nb, sb, ab, na, h1, h2, h3, h4, rfl, l4, l1, l2, l3, rfl⟩
  simp only [List.length_append, l1, l2, l3, l4]
  norm_num [pack_u32_le]

set_option maxRecDepth 100000 in
/-- Witness for C1: the empty name with empty maps yields exactly the magic
followed by 416 zero bytes, of total length 420. -/
theorem C1_witness :
    create_keyboard_layout [] [] [] none =
      .ok ([0x59, 0x4C, 0x42, 0x4B] ++ List.replicate 416 0) ∧
    ([0x59, 0x4C, 0x42, 0x4B] ++ List.replicate 416 (0 : Nat)).length = 420 := by
  have h : create_keyboard_layout [] [] [] none =
      .ok ([0x59, 0x4C, 0x42, 0x4B] ++ List.replicate 416 0) := by decide
  exact ⟨h, (C1_output_is_420_bytes [] [] [] none _ h).1⟩

/-- C2: each supplied map is normalized to exactly 128 on-disk bytes — with k
source entries, every on-disk offset ≥ k inside the map's 128-byte region
holds a zero (padding), and with k > 128 exactly the first 128 resolved bytes
appear on disk (truncation).  Stated for each of the three maps on its own
on-disk region: normal at bytes 36-163, shift at bytes 164-291, and a
supplied altgr map at bytes 292-419. -/
theorem C2_pad_and_truncate :
    (∀ (name : List Char) (nm sm : List Elem) (ag : Option (List Elem))
        (data bl : List Nat),
      create_keyboard_layout name nm sm ag = .ok data →
      resolveList nm = .ok bl →
      (∀ i, nm.length ≤ i → i < 128 → ((data.drop 36).take 128)[i]? = some 0) ∧
      (128 < nm.length → (data.drop 36).take 128 = bl.take 128)) ∧
    (∀ (name : List Char) (nm sm : List Elem) (ag : Option (List Elem))
        (data bl : List Nat),
      create_keyboard_layout name nm sm ag = .ok data →
      resolveList sm = .ok bl →
      (∀ i, sm.length ≤ i → i < 128 → ((data.drop 164).take 128)[i]? = some 0) ∧
      (128 < sm.length → (data.drop 164).take 128 = bl.take 128)) ∧
    (∀ (name : List Char) (nm sm l : List Elem) (data bl : List Nat),
      create_keyboard_layout name nm sm (some l) = .ok data →
      resolveList l = .ok bl →
      (∀ i, l.length ≤ i → i < 128 → (data.drop 292)[i]? = some 0) ∧
      (128 < l.length → data.drop 292 = bl.take 128)) := by
  refine ⟨?_, ?_, ?_⟩
  · intro name nm sm ag data bl h hr
    rcases (create_ok_iff name nm sm ag data).mp h with
      ⟨nb, sb, ab, na, h1, h2, h3, h4, rfl⟩
    rcases to_byte_list_ok_iff.mp h1 with ⟨bl', hr', rfl⟩
    rw [hr'] at hr
    cases hr
    exact pad_trunc_core hr' (data_region_normal na _ sb ab (by simp))
  · intro name nm sm ag data bl h hr
    rcases (create_ok_iff name nm sm ag data).mp h with
      ⟨nb, sb, ab, na, h1, h2, h3, h4, rfl⟩
    rcases to_byte_list_ok_iff.mp h2 with ⟨bl', hr', rfl⟩
    rw [hr'] at hr
    cases hr
    exact pad_trunc_core hr'
      (data_region_shift na nb _ ab (to_byte_list_length h1) (by simp))
  · intro name nm sm l data bl h hr
    rcases (create_ok_iff name nm sm (some l) data).mp h with
      ⟨nb, sb, ab, na, h1, h2, h3, h4, rfl⟩
    rw [altgrMapBytes_some] at h3
    rcases to_byte_list_ok_iff.mp h3 with ⟨bl', hr', rfl⟩
    rw [hr'] at hr
    cases hr
    exact pad_trunc_core hr'
      (data_region_altgr na nb sb _ (to_byte_list_length h1)
        (to_byte_list_length h2))

set_option maxRecDepth 100000 in
/-- Witness for C2 on a single run supplying all three maps: a 130-entry
normal map of byte 5 is truncated to 128 bytes of 5, the 1-entry shift map
is zero at offset 5 of its region, and a 130-entry altgr map of byte 9 is
truncated to 128 bytes of 9. -/
theorem C2_witness :
    ((([0x59, 0x4C, 0x42, 0x4B] ++ List.replicate 32 0 ++ List.replicate 128 5 ++
        (7 :: List.replicate 127 0) ++ List.replicate 128 (9 : Nat)).drop 36).take 128) =
      (List.replicate 130 (5 : Nat)).take 128 ∧
    ((([0x59, 0x4C, 0x42, 0x4B] ++ List.replicate 32 0 ++ List.replicate 128 5 ++
        (7 :: List.replicate 127 0) ++ List.replicate 128 (9 : Nat)).drop 164).take 128)[5]? =
      some 0 ∧
    (([0x59, 0x4C, 0x42, 0x4B] ++ List.replicate 32 0 ++ List.replicate 128 5 ++
        (7 :: List.replicate 127 0) ++ List.replicate 128 (9 : Nat)).drop 292) =
      (List.replicate 130 (9 : Nat)).take 128 :=
  ⟨(C2_pad_and_truncate.1 [] (List.replicate 130 (Elem.intg 5)) [Elem.intg 7]
      (some (List.replicate 130 (Elem.intg 9)))
      ([0x59, 0x4C, 0x42, 0x4B] ++ List.replicate 32 0 ++ List.replicate 128 5 ++
        (7 :: List.replicate 127 0) ++ List.replicate 128 9)
      (List.replicate 130 5) (by decide) (by decide)).2 (by decide),
   (C2_pad_and_truncate.2.1 [] (List.replicate 130 (Elem.intg 5)) [Elem.intg 7]
      (some (List.replicate 130 (Elem.intg 9)))
      ([0x59, 0x4C, 0x42, 0x4B] ++ List.replicate 32 0 ++ List.replicate 128 5 ++
        (7 :: List.replicate 127 0) ++ List.replicate 128 9)
      [7] (by decide) (by decide)).1 5 (by decide) (by decide),
   (C2_pad_and_truncate.2.2 [] (List.replicate 130 (Elem.intg 5)) [Elem.intg 7]
      (List.replicate 130 (Elem.intg 9))
      ([0x59, 0x4C, 0x42, 0x4B] ++ List.replicate 32 0 ++ List.replicate 128 5 ++
        (7 :: List.replicate 127 0) ++ List.replicate 128 9)
      (List.replicate 130 9) (by decide) (by decide)).2 (by decide)⟩

/-- C3: an integer map entry outside [0, 255] (such as 300) makes the whole
encode fail with OutOfRange — no byte stream is produced — wherever it sits:
in the normal, the shift, or a supplied altgr map, whatever entries follow
it, provided the entries before it (and the maps converted before its map)
resolve. -/
theorem C3_int_out_of_range (n : Int) (hn : n < 0 ∨ 255 < n) :
    (∀ (name : List Char) (pre suf sm : List Elem) (ag : Option (List Elem))
        (bl : List Nat),
      resolveList pre = .ok bl →
      create_keyboard_layout name (pre ++ Elem.intg n :: suf) sm ag =
        .error .outOfRange) ∧
    (∀ (name : List Char) (nm pre suf : List Elem) (ag : Option (List Elem))
        (nb bl : List Nat),
      to_byte_list nm = .ok nb → resolveList pre = .ok bl →
      create_keyboard_layout name nm (pre ++ Elem.intg n :: suf) ag =
        .error .outOfRange) ∧
    (∀ (name : List Char) (nm sm pre suf : List Elem) (nb sb bl : List Nat),
      to_byte_list nm = .ok nb → to_byte_list sm = .ok sb →
      resolveList pre = .ok bl →
      create_keyboard_layout name nm sm (some (pre ++ Elem.intg n :: suf)) =
        .error .outOfRange) := by
  have he := resolveElem_int_out hn
  exact ⟨fun name _pre suf sm ag _bl hpre =>
           encode_fails_normal he hpre name suf sm ag,
         fun name _nm _pre suf ag _nb _bl hnm hpre =>
           encode_fails_shift he hnm hpre name suf ag,
         fun name _nm _sm _pre suf _nb _sb _bl hnm hsm hpre =>
           encode_fails_altgr he hnm hsm hpre name suf⟩

set_option maxRecDepth 100000 in
/-- Witness for C3: encoding [300] fails with OutOfRange whether it is the
normal, the shift or the altgr map. -/
theorem C3_witness :
    create_keyboard_layout [] ([] ++ Elem.intg 300 :: []) [] none =
      .error .outOfRange ∧
    create_keyboard_layout [] [] ([] ++ Elem.intg 300 :: []) none =
      .error .outOfRange ∧
    create_keyboard_layout [] [] [] (some ([] ++ Elem.intg 300 :: [])) =
      .error .outOfRange :=
  ⟨(C3_int_out_of_range 300 (by decide)).1 [] [] [] [] none [] rfl,
   (C3_int_out_of_range 300 (by decide)).2.1 [] [] [] [] none
     (List.replicate 128 0) [] (by decide) rfl,
   (C3_int_out_of_range 300 (by decide)).2.2 [] [] [] [] []
     (List.replicate 128 0) (List.replicate 128 0) [] (by decide) (by decide)
     rfl⟩

/-- C4: bytes 0-3 of every successfully produced output are the fixed magic
0x4B424C59 packed in little-endian byte order, i.e. 0x59, 0x4C, 0x42, 0x4B. -/
theorem C4_magic_little_endian (name : List Char) (nm sm : List Elem)
    (ag : Option (List Elem)) (data : List Nat)
    (h : create_keyboard_layout name nm sm ag = .ok data) :
    data.take 4 = pack_u32_le 0x4B424C59 ∧
      pack_u32_le 0x4B424C59 = [0x59, 0x4C, 0x42, 0x4B] := by
  rcases (create_ok_iff name nm sm ag data).mp h with
    ⟨nb, sb, ab, na, _, _, _, _, rfl⟩
  refine ⟨?_, by decide⟩
  simp only [List.append_assoc]
  exact take_append_of_length (show (pack_u32_le magic).length = 4 from rfl)

set_option maxRecDepth 100000 in
/-- Witness for C4 at the name "ES" with empty maps. -/
theorem C4_witness :
    (([0x59, 0x4C, 0x42, 0x4B] ++ (69 :: 83 :: List.replicate 30 0) ++
        List.replicate 384 (0 : Nat)).take 4) = pack_u32_le 0x4B424C59 :=
  (C4_magic_little_endian ['E', 'S'] [] [] none
      ([0x59, 0x4C, 0x42, 0x4B] ++ (69 :: 83 :: List.replicate 30 0) ++
        List.replicate 384 0) (by decide)).1

/-- C5: for an ASCII name the name field occupies exactly bytes 4-35 of the
output (32 bytes): the name's ASCII bytes truncated to at most 31 bytes, then
a zero terminator, then zero padding; and the normal map region starting at
byte 36 holds exactly the normal map bytes, so the name never overflows into
it. -/
theorem C5_name_region (name : List Char) (nm sm : List Elem)
    (ag : Option (List Elem)) (data nb : List Nat)
    (hascii : ∀ c ∈ name, c.toNat < 128)
    (h : create_keyboard_layout name nm sm ag = .ok data)
    (hnb : to_byte_list nm = .ok nb) :
    (data.drop 4).take 32 =
      (name.map Char.toNat).take 31 ++
        0 :: List.replicate (31 - ((name.map Char.toNat).take 31).length) 0 ∧
    ((data.drop 4).take 32).length = 32 ∧
    (data.drop 36).take 128 = nb := by
  rcases (create_ok_iff name nm sm ag data).mp h with
    ⟨nb', sb, ab, na, h1, h2, h3, h4, rfl⟩
  rw [hnb] at h1
  cases h1
  rw [encode_ascii_ok hascii] at h4
  cases h4
  have hreg := data_region_name (name.map Char.toNat) nb sb ab
  refine ⟨?_, ?_, data_region_normal _ _ _ _ (to_byte_list_length hnb)⟩
  · rw [hreg, name_field_eq]
  · rw [hreg]
    exact name_field_length _

set_option maxRecDepth 100000 in
/-- Witness for C5: a 40-character ASCII name is stored as its first 31
bytes plus a zero terminator, filling bytes 4-35 exactly. -/
theorem C5_witness :
    ((([0x59, 0x4C, 0x42, 0x4B] ++ (List.replicate 31 97 ++ [0]) ++
        List.replicate 384 (0 : Nat)).drop 4).take 32) =
      ((List.replicate 40 'a').map Char.toNat).take 31 ++
        0 :: List.replicate
          (31 - (((List.replicate 40 'a').map Char.toNat).take 31).length) 0 :=
  (C5_name_region (List.replicate 40 'a') [] [] none
      ([0x59, 0x4C, 0x42, 0x4B] ++ (List.replicate 31 97 ++ [0]) ++
        List.replicate 384 0)
      (List.replicate 128 0) (by decide) (by decide) (by decide)).1

set_option maxRecDepth 100000 in
/-- C6: a single-character entry found in the special-character table resolves
to the table's byte value; in particular a 1-element normal map holding 'ñ'
yields byte 0xF1 at output offset 36 followed by 127 zero bytes. -/
theorem C6_special_char_table :
    (∀ c v, special_chars c = some v → resolveElem (Elem.str [c]) = .ok v) ∧
    (∀ (name : List Char) (sm : List Elem) (ag : Option (List Elem))
        (data : List Nat),
      create_keyboard_layout name [Elem.str ['ñ']] sm ag = .ok data →
      (data.drop 36).take 128 = 0xF1 :: List.replicate 127 0) := by
  constructor
  · exact fun c v h => resolveElem_special h
  · intro name sm ag data h
    rcases (create_ok_iff name [Elem.str ['ñ']] sm ag data).mp h with
      ⟨nb, sb, ab, na, h1, h2, h3, h4, rfl⟩
    have hsp : to_byte_list [Elem.str ['ñ']] =
        .ok (0xF1 :: List.replicate 127 0) := by decide
    rw [hsp] at h1
    cases h1
    exact data_region_normal na _ sb ab (by simp)

set_option maxRecDepth 100000 in
/-- Witness for C6: '€' resolves to 0x80 through the table, and a concrete
run with normal map ['ñ'] has byte 0xF1 at offset 36 then 127 zeros. -/
theorem C6_witness :
    resolveElem (Elem.str ['€']) = .ok 0x80 ∧
    ((([0x59, 0x4C, 0x42, 0x4B] ++ List.replicate 32 0 ++
        (0xF1 :: List.replicate 127 0) ++
        List.replicate 256 (0 : Nat)).drop 36).take 128) =
      0xF1 :: List.replicate 127 0 :=
  ⟨C6_special_char_table.1 '€' 0x80 (by decide),
   C6_special_char_table.2 [] [] none
     ([0x59, 0x4C, 0x42, 0x4B] ++ List.replicate 32 0 ++
       (0xF1 :: List.replicate 127 0) ++ List.replicate 256 0) (by decide)⟩

/-- C7: a map entry that is a string of length ≠ 1 (such as "ab"), or that is
neither a string nor an integer, makes the encode fail with InvalidElement,
wherever it sits — in the normal, the shift, or a supplied altgr map —
provided the entries before it (and the maps converted before its map)
resolve. -/
theorem C7_invalid_element (x : Elem)
    (hx : (∃ s, x = Elem.str s ∧ s.length ≠ 1) ∨ x = Elem.other) :
    (∀ (name : List Char) (pre suf sm : List Elem) (ag : Option (List Elem))
        (bl : List Nat),
      resolveList pre = .ok bl →
      create_keyboard_layout name (pre ++ x :: suf) sm ag =
        .error .invalidElement) ∧
    (∀ (name : List Char) (nm pre suf : List Elem) (ag : Option (List Elem))
        (nb bl : List Nat),
      to_byte_list nm = .ok nb → resolveList pre = .ok bl →
      create_keyboard_layout name nm (pre ++ x :: suf) ag =
        .error .invalidElement) ∧
    (∀ (name : List Char) (nm sm pre suf : List Elem) (nb sb bl : List Nat),
      to_byte_list nm = .ok nb → to_byte_list sm = .ok sb →
      resolveList pre = .ok bl →
      create_keyboard_layout name nm sm (some (pre ++ x :: suf)) =
        .error .invalidElement) := by
  have he : resolveElem x = .error .invalidElement := by
    rcases hx with ⟨s, rfl, hs⟩ | rfl
    · exact resolveElem_str_not_single hs
    · rfl
  exact ⟨fun name _pre suf sm ag _bl hpre =>
           encode_fails_normal he hpre name suf sm ag,
         fun name _nm _pre suf ag _nb _bl hnm hpre =>
           encode_fails_shift he hnm hpre name suf ag,
         fun name _nm _sm _pre suf _nb _sb _bl hnm hsm hpre =>
           encode_fails_altgr he hnm hsm hpre name suf⟩

set_option maxRecDepth 100000 in
/-- Witness for C7: encoding ["ab"] fails with InvalidElement whether it is
the normal, the shift or the altgr map. -/
theorem C7_witness :
    create_keyboard_layout [] ([] ++ Elem.str ['a', 'b'] :: []) [] none =
      .error .invalidElement ∧
    create_keyboard_layout [] [] ([] ++ Elem.str ['a', 'b'] :: []) none =
      .error .invalidElement ∧
    create_keyboard_layout [] [] []
        (some ([] ++ Elem.str ['a', 'b'] :: [])) =
      .error .invalidElement :=
  ⟨(C7_invalid_element (Elem.str ['a', 'b'])
      (Or.inl ⟨['a', 'b'], rfl, by decide⟩)).1 [] [] [] [] none [] rfl,
   (C7_invalid_element (Elem.str ['a', 'b'])
      (Or.inl ⟨['a', 'b'], rfl, by decide⟩)).2.1 [] [] [] [] none
     (List.replicate 128 0) [] (by decide) rfl,
   (C7_invalid_element (Elem.str ['a', 'b'])
      (Or.inl ⟨['a', 'b'], rfl, by decide⟩)).2.2 [] [] [] [] []
     (List.replicate 128 0) (List.replicate 128 0) [] (by decide) (by decide)
     rfl⟩

/-- C8: when the altgr map is omitted (None), the altgr region of the output,
bytes 292-419, is 128 zero bytes. -/
theorem C8_altgr_omitted_zero (name : List Char) (nm sm : List Elem)
    (data : List Nat)
    (h : create_keyboard_layout name nm sm none = .ok data) :
    data.drop 292 = List.replicate 128 0 := by
  rcases (create_ok_iff name nm sm none data).mp h with
    ⟨nb, sb, ab, na, h1, h2, h3, _, rfl⟩
  simp only [altgrMapBytes, Except.ok.injEq] at h3
  subst h3
  exact data_region_altgr na nb sb _ (to_byte_list_length h1)
    (to_byte_list_length h2)

set_option maxRecDepth 100000 in
/-- Witness for C8: a concrete call without an altgr map has zero bytes at
offsets 292-419. -/
theorem C8_witness :
    (([0x59, 0x4C, 0x42, 0x4B] ++ (120 :: List.replicate 31 0) ++
        (1 :: List.replicate 127 0) ++ List.replicate 128 0 ++
        List.replicate 128 (0 : Nat)).drop 292) = List.replicate 128 0 :=
  C8_altgr_omitted_zero ['x'] [Elem.intg 1] []
    ([0x59, 0x4C, 0x42, 0x4B] ++ (120 :: List.replicate 31 0) ++
      (1 :: List.replicate 127 0) ++ List.replicate 128 0 ++
      List.replicate 128 0) (by decide)

/-- C9: per-element validation is applied to every entry of every supplied
map before truncation to 128 bytes: whether in the normal, the shift or a
supplied altgr map, a failing entry at an index ≥ 128 (after at least 128
entries that resolve) still makes the encode fail with that entry's error
instead of silently discarding it. -/
theorem C9_validation_precedes_truncation (x : Elem) (e : KbdError)
    (hx : resolveElem x = .error e) :
    (∀ (name : List Char) (pre suf sm : List Elem) (ag : Option (List Elem))
        (bl : List Nat),
      resolveList pre = .ok bl → 128 ≤ pre.length →
      create_keyboard_layout name (pre ++ x :: suf) sm ag = .error e) ∧
    (∀ (name : List Char) (nm pre suf : List Elem) (ag : Option (List Elem))
        (nb bl : List Nat),
      to_byte_list nm = .ok nb → resolveList pre = .ok bl →
      128 ≤ pre.length →
      create_keyboard_layout name nm (pre ++ x :: suf) ag = .error e) ∧
    (∀ (name : List Char) (nm sm pre suf : List Elem) (nb sb bl : List Nat),
      to_byte_list nm = .ok nb → to_byte_list sm = .ok sb →
      resolveList pre = .ok bl → 128 ≤ pre.length →
      create_keyboard_layout name nm sm (some (pre ++ x :: suf)) =
        .error e) :=
  ⟨fun name _pre suf sm ag _bl hpre _ =>
     encode_fails_normal hx hpre name suf sm ag,
   fun name _nm _pre suf ag _nb _bl hnm hpre _ =>
     encode_fails_shift hx hnm hpre name suf ag,
   fun name _nm _sm _pre suf _nb _sb _bl hnm hsm hpre _ =>
     encode_fails_altgr hx hnm hsm hpre name suf⟩

set_option maxRecDepth 100000 in
/-- Witness for C9: 128 valid zero entries followed by the entry 300 at index
128 still fail with OutOfRange, in each of the three map positions. -/
theorem C9_witness :
    create_keyboard_layout []
      (List.replicate 128 (Elem.intg 0) ++ Elem.intg 300 :: []) [] none =
      .error .outOfRange ∧
    create_keyboard_layout [] []
      (List.replicate 128 (Elem.intg 0) ++ Elem.intg 300 :: []) none =
      .error .outOfRange ∧
    create_keyboard_layout [] [] []
      (some (List.replicate 128 (Elem.intg 0) ++ Elem.intg 300 :: [])) =
      .error .outOfRange :=
  ⟨(C9_validation_precedes_truncation (Elem.intg 300) .outOfRange
      (by decide)).1 [] (List.replicate 128 (Elem.intg 0)) [] [] none
      (List.replicate 128 0) (by decide) (by decide),
   (C9_validation_precedes_truncation (Elem.intg 300) .outOfRange
      (by decide)).2.1 [] [] (List.replicate 128 (Elem.intg 0)) [] none
      (List.replicate 128 0) (List.replicate 128 0) (by decide) (by decide)
      (by decide),
   (C9_validation_precedes_truncation (Elem.intg 300) .outOfRange
      (by decide)).2.2 [] [] [] (List.replicate 128 (Elem.intg 0)) []
      (List.replicate 128 0) (List.replicate 128 0) (List.replicate 128 0)
      (by decide) (by decide) (by decide) (by decide)⟩

/-- C10: the name is ASCII-encoded before being truncated to 31 bytes, so a
non-ASCII character anywhere in the name — including positions ≥ 31 that
truncation would drop — makes the encode fail with the name encoding error
once the maps have resolved, and no byte stream is produced. -/
theorem C10_name_encoded_before_truncation (name : List Char)
    (nm sm : List Elem) (ag : Option (List Elem)) (nb sb ab : List Nat)
    (hnm : to_byte_list nm = .ok nb) (hsm : to_byte_list sm = .ok sb)
    (hag : altgrMapBytes ag = .ok ab)
    (hname : ∃ c ∈ name, 128 ≤ c.toNat) :
    create_keyboard_layout name nm sm ag = .error .nameEncodingError :=
  create_error_of_name hnm hsm hag (encode_ascii_error hname)

set_option maxRecDepth 100000 in
/-- Witness for C10: a name of 31 ASCII characters followed by 'ñ' at index
31 fails with the name encoding error. -/
theorem C10_witness :
    create_keyboard_layout (List.replicate 31 'a' ++ ['ñ']) [] [] none =
      .error .nameEncodingError :=
  C10_name_encoded_before_truncation (List.replicate 31 'a' ++ ['ñ'])
    [] [] none (List.replicate 128 0) (List.replicate 128 0)
    (List.replicate 128 0) (by decide) (by decide) (by decide) (by decide)

end KbdMaker
